import Mathlib

/-!
Verification model of the `statemachine` Go package: a finite-state-machine
engine with a (event, source) → destination transition table, a
(target, phase) → callback handler registry, cancellation, and deferred
(asynchronous) completion via an explicit resume call.

Modelling conventions:
* Go maps are modelled as association lists; insertion conses to the front
  and lookup takes the first match, giving Go's overwrite (last-write-wins)
  semantics for repeated keys.
* A Go callback `func(*Event)` mutates the shared `Event` context; per the
  library's callback contract (callbacks interact with the machine only
  through the context: setting `Err`, calling `Cancel`/`Async`, reading the
  fields), a handler is modelled as a pure transformer `Event → Event`.
* Go `error` values are modelled by the inductive `GoError`, one constructor
  per distinct error produced by the package, plus `userError` for error
  values created inside callbacks.
* `StateMachine.Event` (fire) and `StateMachine.Excute` (resume) are
  instrumented: besides the returned error and the updated machine they
  also report a trace of which callback slots ran (and when the state
  mutation happened), an outcome tag recording which return path was taken,
  and the final transition context.  The returned error field is computed
  exactly as the Go code computes its return value.
-/

/-- Go `error` values the package can produce or that a callback can set. -/
inductive GoError where
  /-- fire called while a previous transition has not completed. -/
  | transitionInProgress (eventName : String)
  /-- fired event name is not declared in any transition descriptor. -/
  | unknownEvent (eventName : String)
  /-- fired event is declared, but not from the current state. -/
  | illegalTransition (eventName current : String)
  /-- resume called while no state change is in progress. -/
  | noTransitionInProgress
  /-- internal error on state transition (unreachable in this code). -/
  | internalError
  /-- an error value set by a user callback. -/
  | userError (msg : String)
deriving DecidableEq

/-- The transition context (Go struct `Event`): created per fire call and
threaded through all callbacks of one transition attempt.  The Go struct's
`StateMachine` back-pointer is not modelled (callbacks interact only via the
context). -/
structure Event where
  Name : String
  Src : String
  Dst : String
  Err : Option GoError
  Args : List String
  canceled : Bool
  async : Bool
deriving DecidableEq

/-- `Event.Cancel`: set the canceled flag (Go mutates, we return the copy). -/
def Event.Cancel (event : Event) : Event := { event with canceled := true }

/-- `Event.Async`: set the async flag (Go mutates, we return the copy). -/
def Event.Async (event : Event) : Event := { event with async := true }

/-- A callback, modelled as a pure transformer of the transition context. -/
abbrev Handler := Event → Event

/-- Go `EventDesc`: one transition descriptor. -/
structure EventDesc where
  Name : String
  Src : List String
  Dst : String

/-- Go `Events`: the descriptor list. -/
abbrev Events := List EventDesc

/-- Go `Handlers`: the raw handler-name-to-callback map (as a list; Go map
iteration order is unspecified, the list order stands in for it). -/
abbrev Handlers := List (String × Handler)

/-- Go `stateKey`: key of the transition table. -/
structure stateKey where
  event : String
  src : String
deriving BEq, DecidableEq

/-- Go `handlerType`: the phase at which a callback runs.  The Go `noHandler`
zero value is modelled by `Option.none` at use sites. -/
inductive handlerType where
  | beforeEvent
  | leaveState
  | enterState
  | afterEvent
deriving BEq, DecidableEq

/-- Go `handlerKey`: key of the handler registry. -/
structure handlerKey where
  target : String
  handlerType : handlerType
deriving BEq, DecidableEq

/-- Lookup in a Go map modelled as an association list: first match from the
front. -/
def mapLookup {K V : Type} [BEq K] (l : List (K × V)) (k : K) : Option V :=
  match l.find? (fun kv => kv.1 == k) with
  | some kv => some kv.2
  | none => none

/-- Insertion into a Go map modelled as an association list: cons to the
front, so `mapLookup` sees the newest binding (Go overwrite semantics). -/
def mapInsert {K V : Type} (l : List (K × V)) (k : K) (v : V) : List (K × V) :=
  (k, v) :: l

/-- A pending (deferred) transition: the data the Go closure stored in
`machine.startState` captures — the event name, the destination looked up at
fire time, and the transition context as mutated up to the defer point. -/
structure Pending where
  eventName : String
  dst : String
  ctx : Event
deriving DecidableEq

/-- Go `StateMachine`. `startState` is the stored continuation: `none` iff no
transition is in progress. -/
structure StateMachine where
  current : String
  states : List (stateKey × String)
  handlers : List (handlerKey × Handler)
  startState : Option Pending

/-- The transition table built by `NewStateMachine`'s first loop:
for each descriptor, for each source, insert `(event, src) → dst`. -/
def buildStates (events : Events) : List (stateKey × String) :=
  events.foldl
    (fun acc ev => ev.Src.foldl (fun a src => mapInsert a ⟨ev.Name, src⟩ ev.Dst) acc)
    []

/-- The set of all known state names collected by `NewStateMachine`: both the
source and the destination are added once per source iteration (so a
descriptor with an empty source list contributes no state). -/
def collectStates (events : Events) : List String :=
  events.foldl
    (fun acc ev => ev.Src.foldl (fun a src => ev.Dst :: src :: a) acc)
    []

/-- The set of all known event names collected by `NewStateMachine`: every
descriptor's name is added, even with an empty source list. -/
def collectEvents (events : Events) : List String :=
  events.foldl (fun acc ev => ev.Name :: acc) []

/-- Go `strings.HasPrefix`, modelled structurally on the character list. -/
def hasPre (s pre : String) : Bool :=
  pre.data.isPrefixOf s.data

/-- Go `strings.TrimPrefix`: remove the leading prefix when present,
otherwise return the string unchanged. -/
def trimPre (s pre : String) : String :=
  if hasPre s pre then ⟨s.data.drop pre.data.length⟩ else s

/-- Handler-name classification performed by `NewStateMachine`'s switch:
returns the `(target, handlerType)` registration for a raw handler name, or
`none` when the name is silently ignored. -/
def classifyHandlerName (allEvents allStates : List String) (name : String) :
    Option (String × handlerType) :=
  if hasPre name "before_" then
    let target := trimPre name "before_"
    if target == "event" then some ("", .beforeEvent)
    else if allEvents.contains target then some (target, .beforeEvent)
    else none
  else if hasPre name "leave_" then
    let target := trimPre name "leave_"
    if target == "state" then some ("", .leaveState)
    else if allStates.contains target then some (target, .leaveState)
    else none
  else if hasPre name "enter_" then
    let target := trimPre name "enter_"
    if target == "state" then some ("", .enterState)
    else if allStates.contains target then some (target, .enterState)
    else none
  else if hasPre name "after_" then
    let target := trimPre name "after_"
    if target == "event" then some ("", .afterEvent)
    else if allEvents.contains target then some (target, .afterEvent)
    else none
  else
    if allStates.contains name then some (name, .enterState)
    else if allEvents.contains name then some (name, .afterEvent)
    else none

/-- Go `NewStateMachine`: build the transition table, collect the known
event/state name sets, classify and register every handler. -/
def NewStateMachine (initial : String) (events : Events) (handlers : Handlers) :
    StateMachine :=
  let allEvents := collectEvents events
  let allStates := collectStates events
  let hs := handlers.foldl
    (fun acc nh =>
      match classifyHandlerName allEvents allStates nh.1 with
      | some (target, ht) => mapInsert acc ⟨target, ht⟩ nh.2
      | none => acc)
    []
  ⟨initial, buildStates events, hs, none⟩

/-- Go `StateMachine.Current`. -/
def StateMachine.Current (machine : StateMachine) : String := machine.current

/-- Go `StateMachine.Is`. -/
def StateMachine.Is (machine : StateMachine) (state : String) : Bool :=
  state == machine.current

/-- Go `StateMachine.Can`. -/
def StateMachine.Can (machine : StateMachine) (event : String) : Bool :=
  (mapLookup machine.states ⟨event, machine.current⟩).isSome
    && machine.startState.isNone

/-- Go `StateMachine.Cannot`. -/
def StateMachine.Cannot (machine : StateMachine) (event : String) : Bool :=
  !(machine.Can event)

/-- Trace items: the callback slots of one transition, in the order the code
consults them, plus the current-state mutation point. -/
inductive Slot where
  | beforeNamed
  | beforeGeneric
  | leaveNamed
  | leaveGeneric
  | setState
  | enterNamed
  | enterGeneric
  | afterNamed
  | afterGeneric
deriving DecidableEq

/-- Look up one handler slot; if registered run it, recording the slot. -/
def runOptHandler (hs : List (handlerKey × Handler)) (key : handlerKey)
    (slot : Slot) (c : Event) : Event × List Slot :=
  match mapLookup hs key with
  | some h => (h c, [slot])
  | none => (c, [])

/-- Result of one before-phase step (one `if handler, ok := ...` block in the
Go code): either the handler canceled, or control flows on. -/
inductive StepOut where
  | canceledOut (c : Event) (tr : List Slot)
  | ok (c : Event) (tr : List Slot)

/-- One before-phase block: if the handler is registered, run it and check
the canceled flag; otherwise pass through unchanged. -/
def beforeStep (hs : List (handlerKey × Handler)) (key : handlerKey)
    (slot : Slot) (c : Event) (tr : List Slot) : StepOut :=
  match mapLookup hs key with
  | some h =>
    let c' := h c
    if c'.canceled then .canceledOut c' (tr ++ [slot])
    else .ok c' (tr ++ [slot])
  | none => .ok c tr

/-- The before phase: named handler for the event, then the generic handler,
aborting right after any invocation that canceled. -/
def beforePhase (hs : List (handlerKey × Handler)) (eventName : String)
    (c : Event) : StepOut :=
  match beforeStep hs ⟨eventName, .beforeEvent⟩ .beforeNamed c [] with
  | .canceledOut c' tr => .canceledOut c' tr
  | .ok c1 tr1 => beforeStep hs ⟨"", .beforeEvent⟩ .beforeGeneric c1 tr1

/-- Result of the leave phase: canceled, deferred, or fell through. -/
inductive LeaveOut where
  | lcancel (c : Event) (tr : List Slot)
  | ldefer (c : Event) (tr : List Slot)
  | lthrough (c : Event) (tr : List Slot)

/-- One leave-phase block: if the handler is registered, run it, then check
the canceled flag first and the async flag second; if it is not registered
neither flag is consulted. -/
def leaveStep (hs : List (handlerKey × Handler)) (key : handlerKey)
    (slot : Slot) (c : Event) (tr : List Slot) : LeaveOut :=
  match mapLookup hs key with
  | some h =>
    let c' := h c
    if c'.canceled then .lcancel c' (tr ++ [slot])
    else if c'.async then .ldefer c' (tr ++ [slot])
    else .lthrough c' (tr ++ [slot])
  | none => .lthrough c tr

/-- The leave phase: named handler for the source state, then the generic
handler; a cancel or defer right after either invocation stops the phase. -/
def leavePhase (hs : List (handlerKey × Handler)) (src : String) (c : Event) :
    LeaveOut :=
  match leaveStep hs ⟨src, .leaveState⟩ .leaveNamed c [] with
  | .lthrough c1 tr1 => leaveStep hs ⟨"", .leaveState⟩ .leaveGeneric c1 tr1
  | out => out

/-- The stored continuation's body (the closure assigned to
`machine.startState` in the Go code): set the current state to the
destination, then run the enter handlers (named for the new current state,
then generic) and the after handlers (named for the event, then generic).
No cancel/async checks happen here. -/
def runPending (m : StateMachine) (eventName dst : String) (c : Event) :
    StateMachine × Event × List Slot :=
  let m1 : StateMachine := { m with current := dst }
  let r1 := runOptHandler m1.handlers ⟨m1.current, .enterState⟩ .enterNamed c
  let r2 := runOptHandler m1.handlers ⟨"", .enterState⟩ .enterGeneric r1.1
  let r3 := runOptHandler m1.handlers ⟨eventName, .afterEvent⟩ .afterNamed r2.1
  let r4 := runOptHandler m1.handlers ⟨"", .afterEvent⟩ .afterGeneric r3.1
  (m1, r4.1, .setState :: (r1.2 ++ r2.2 ++ r3.2 ++ r4.2))

/-- Instrumented result of `StateMachine.Excute`. -/
structure ExcuteRes where
  ret : Option GoError
  machine : StateMachine
  trace : List Slot
  finalCtx : Option Event

/-- Go `StateMachine.Excute` (resume): fail if no state change is in
progress; otherwise run the stored continuation, clear the pending slot and
return nil. -/
def StateMachine.Excute (f : StateMachine) : ExcuteRes :=
  match f.startState with
  | none => ⟨some .noTransitionInProgress, f, [], none⟩
  | some p =>
    let r := runPending f p.eventName p.dst p.ctx
    ⟨none, { r.1 with startState := none }, r.2.2, some r.2.1⟩

/-- Which return path a fire call took (instrumentation tag). -/
inductive Outcome where
  /-- previous transition did not complete. -/
  | busy
  /-- event does not exist. -/
  | unknown
  /-- event inappropriate in the current state. -/
  | illegal
  /-- destination equals the current state: return nil at once. -/
  | noop
  /-- a before or leave handler canceled: return the context's error. -/
  | cancelReturn
  /-- a leave handler deferred: pending stored, return the context's error. -/
  | deferReturn
  /-- synchronous completion: return the context's error. -/
  | syncReturn
deriving DecidableEq

/-- Instrumented result of `StateMachine.Event`: the updated machine, the Go
return value, the trace of slots that ran, the return-path tag, and the final
transition context (none when no context was ever constructed). -/
structure FireRes where
  machine : StateMachine
  ret : Option GoError
  trace : List Slot
  outcome : Outcome
  finalCtx : Option Event

/-- Construction of the fresh transition context in `StateMachine.Event`. -/
def mkEvent (eventName src dst : String) (args : List String) : Event :=
  ⟨eventName, src, dst, none, args, false, false⟩

/-- Does any transition-table key mention this event name?  (The Go loop
over `machine.states` deciding unknown-event vs illegal-transition.) -/
def hasEventEntry (states : List (stateKey × String)) (eventName : String) :
    Bool :=
  states.any (fun kv => kv.1.event == eventName)

/-- Go `StateMachine.Event` (fire): busy check, table lookup (distinguishing
unknown event from illegal transition), no-op check, before phase, leave
phase (storing the pending continuation on defer), and otherwise immediate
execution of the continuation.  The Go code assigns the continuation closure
to `machine.startState` before the leave phase and runs it through
`machine.Excute()` on the synchronous path; since the closure is then
guaranteed to be non-nil, that call cannot fail, and its net effect —
inlined here — is to run the continuation and leave `startState` cleared. -/
def StateMachine.Event (machine : StateMachine) (eventName : String)
    (args : List String) : FireRes :=
  match machine.startState with
  | some _ => ⟨machine, some (.transitionInProgress eventName), [], .busy, none⟩
  | none =>
    match mapLookup machine.states ⟨eventName, machine.current⟩ with
    | none =>
      if hasEventEntry machine.states eventName then
        ⟨machine, some (.illegalTransition eventName machine.current), [],
          .illegal, none⟩
      else
        ⟨machine, some (.unknownEvent eventName), [], .unknown, none⟩
    | some dst =>
      if machine.current == dst then ⟨machine, none, [], .noop, none⟩
      else
        match beforePhase machine.handlers eventName
            (mkEvent eventName machine.current dst args) with
        | .canceledOut c tr => ⟨machine, c.Err, tr, .cancelReturn, some c⟩
        | .ok c1 tr1 =>
          match leavePhase machine.handlers machine.current c1 with
          | .lcancel c2 tr2 =>
            ⟨machine, c2.Err, tr1 ++ tr2, .cancelReturn, some c2⟩
          | .ldefer c2 tr2 =>
            ⟨{ machine with startState := some ⟨eventName, dst, c2⟩ },
              c2.Err, tr1 ++ tr2, .deferReturn, some c2⟩
          | .lthrough c2 tr2 =>
            let r := runPending machine eventName dst c2
            ⟨{ r.1 with startState := none }, r.2.1.Err,
              tr1 ++ tr2 ++ r.2.2, .syncReturn, some r.2.1⟩

/-- Whether the callback slot of a transition (event `eventName`, source
`src`, destination `dst`) has a registered handler; the state-mutation slot
is always present. -/
def slotPresent (hs : List (handlerKey × Handler)) (eventName src dst : String) :
    Slot → Bool
  | .beforeNamed => (mapLookup hs ⟨eventName, .beforeEvent⟩).isSome
  | .beforeGeneric => (mapLookup hs ⟨"", .beforeEvent⟩).isSome
  | .leaveNamed => (mapLookup hs ⟨src, .leaveState⟩).isSome
  | .leaveGeneric => (mapLookup hs ⟨"", .leaveState⟩).isSome
  | .setState => true
  | .enterNamed => (mapLookup hs ⟨dst, .enterState⟩).isSome
  | .enterGeneric => (mapLookup hs ⟨"", .enterState⟩).isSome
  | .afterNamed => (mapLookup hs ⟨eventName, .afterEvent⟩).isSome
  | .afterGeneric => (mapLookup hs ⟨"", .afterEvent⟩).isSome

/-- The reference callback order of one full synchronous transition. -/
def fullOrder : List Slot :=
  [.beforeNamed, .beforeGeneric, .leaveNamed, .leaveGeneric, .setState,
   .enterNamed, .enterGeneric, .afterNamed, .afterGeneric]

theorem beforeStep_ok_inv (hs : List (handlerKey × Handler)) (key : handlerKey)
    (slot : Slot) (c : Event) (tr : List Slot) (c' : Event) (tr' : List Slot)
    (h : beforeStep hs key slot c tr = .ok c' tr') :
    (mapLookup hs key = none ∧ c' = c ∧ tr' = tr) ∨
    (∃ hh, mapLookup hs key = some hh ∧ c' = hh c ∧ tr' = tr ++ [slot]) := by
  unfold beforeStep at h
  cases h1 : mapLookup hs key with
  | none => rw [h1] at h; cases h; exact Or.inl ⟨rfl, rfl, rfl⟩
  | some hh =>
    rw [h1] at h
    by_cases hc : (hh c).canceled <;> simp [hc] at h
    exact Or.inr ⟨hh, rfl, h.1.symm, h.2.symm⟩

theorem beforeStep_canceled_inv (hs : List (handlerKey × Handler))
    (key : handlerKey) (slot : Slot) (c : Event) (tr : List Slot) (c' : Event)
    (tr' : List Slot) (h : beforeStep hs key slot c tr = .canceledOut c' tr') :
    c'.canceled = true := by
  unfold beforeStep at h
  cases h1 : mapLookup hs key with
  | none => rw [h1] at h; cases h
  | some hh =>
    rw [h1] at h
    by_cases hc : (hh c).canceled <;> simp [hc] at h
    rw [← h.1]; exact hc

theorem beforePhase_ok_trace (hs : List (handlerKey × Handler))
    (eventName src dst : String) (c c' : Event) (tr : List Slot)
    (h : beforePhase hs eventName c = .ok c' tr) :
    tr = [Slot.beforeNamed, Slot.beforeGeneric].filter
      (slotPresent hs eventName src dst) := by
  unfold beforePhase at h
  cases hstep : beforeStep hs ⟨eventName, .beforeEvent⟩ .beforeNamed c [] with
  | canceledOut c0 tr0 => rw [hstep] at h; cases h
  | ok c1 tr1 =>
    rw [hstep] at h
    rcases beforeStep_ok_inv _ _ _ _ _ _ _ hstep with ⟨h1, _, ht1⟩ | ⟨hh, h1, _, ht1⟩ <;>
      rcases beforeStep_ok_inv _ _ _ _ _ _ _ h with ⟨h2, _, ht2⟩ | ⟨hh2, h2, _, ht2⟩ <;>
      simp [ht2, ht1, slotPresent, h1, h2, List.filter]

theorem beforePhase_canceled_inv (hs : List (handlerKey × Handler))
    (eventName : String) (c c' : Event) (tr : List Slot)
    (h : beforePhase hs eventName c = .canceledOut c' tr) :
    c'.canceled = true := by
  unfold beforePhase at h
  cases hstep : beforeStep hs ⟨eventName, .beforeEvent⟩ .beforeNamed c [] with
  | canceledOut c0 tr0 =>
    rw [hstep] at h; cases h
    exact beforeStep_canceled_inv _ _ _ _ _ _ _ hstep
  | ok c1 tr1 =>
    rw [hstep] at h
    exact beforeStep_canceled_inv _ _ _ _ _ _ _ h

theorem leaveStep_lthrough_inv (hs : List (handlerKey × Handler))
    (key : handlerKey) (slot : Slot) (c : Event) (tr : List Slot) (c' : Event)
    (tr' : List Slot) (h : leaveStep hs key slot c tr = .lthrough c' tr') :
    (mapLookup hs key = none ∧ c' = c ∧ tr' = tr) ∨
    (∃ hh, mapLookup hs key = some hh ∧ c' = hh c ∧ tr' = tr ++ [slot]) := by
  unfold leaveStep at h
  cases h1 : mapLookup hs key with
  | none => rw [h1] at h; cases h; exact Or.inl ⟨rfl, rfl, rfl⟩
  | some hh =>
    rw [h1] at h
    by_cases hc : (hh c).canceled <;> by_cases ha : (hh c).async <;>
      simp [hc, ha] at h
    exact Or.inr ⟨hh, rfl, h.1.symm, h.2.symm⟩

theorem leaveStep_lcancel_inv (hs : List (handlerKey × Handler))
    (key : handlerKey) (slot : Slot) (c : Event) (tr : List Slot) (c' : Event)
    (tr' : List Slot) (h : leaveStep hs key slot c tr = .lcancel c' tr') :
    c'.canceled = true := by
  unfold leaveStep at h
  cases h1 : mapLookup hs key with
  | none => rw [h1] at h; cases h
  | some hh =>
    rw [h1] at h
    by_cases hc : (hh c).canceled <;> by_cases ha : (hh c).async <;>
      simp [hc, ha] at h <;> rw [← h.1] <;> exact hc

theorem leaveStep_ldefer_inv (hs : List (handlerKey × Handler))
    (key : handlerKey) (slot : Slot) (c : Event) (tr : List Slot) (c' : Event)
    (tr' : List Slot) (h : leaveStep hs key slot c tr = .ldefer c' tr') :
    c'.canceled = false ∧ c'.async = true := by
  unfold leaveStep at h
  cases h1 : mapLookup hs key with
  | none => rw [h1] at h; cases h
  | some hh =>
    rw [h1] at h
    by_cases hc : (hh c).canceled <;> by_cases ha : (hh c).async <;>
      simp [hc, ha] at h
    rw [← h.1]
    exact ⟨by simp [hc], by simp [ha]⟩

theorem leavePhase_lthrough_trace (hs : List (handlerKey × Handler))
    (eventName src dst : String) (c c' : Event) (tr : List Slot)
    (h : leavePhase hs src c = .lthrough c' tr) :
    tr = [Slot.leaveNamed, Slot.leaveGeneric].filter
      (slotPresent hs eventName src dst) := by
  unfold leavePhase at h
  cases hstep : leaveStep hs ⟨src, .leaveState⟩ .leaveNamed c [] with
  | lcancel c0 tr0 => rw [hstep] at h; cases h
  | ldefer c0 tr0 => rw [hstep] at h; cases h
  | lthrough c1 tr1 =>
    rw [hstep] at h
    rcases leaveStep_lthrough_inv _ _ _ _ _ _ _ hstep with ⟨h1, _, ht1⟩ | ⟨hh, h1, _, ht1⟩ <;>
      rcases leaveStep_lthrough_inv _ _ _ _ _ _ _ h with ⟨h2, _, ht2⟩ | ⟨hh2, h2, _, ht2⟩ <;>
      simp [ht2, ht1, slotPresent, h1, h2, List.filter]

theorem leavePhase_lcancel_inv (hs : List (handlerKey × Handler)) (src : String)
    (c c' : Event) (tr : List Slot) (h : leavePhase hs src c = .lcancel c' tr) :
    c'.canceled = true := by
  unfold leavePhase at h
  cases hstep : leaveStep hs ⟨src, .leaveState⟩ .leaveNamed c [] with
  | lcancel c0 tr0 =>
    rw [hstep] at h; cases h
    exact leaveStep_lcancel_inv _ _ _ _ _ _ _ hstep
  | ldefer c0 tr0 => rw [hstep] at h; cases h
  | lthrough c1 tr1 =>
    rw [hstep] at h
    exact leaveStep_lcancel_inv _ _ _ _ _ _ _ h

theorem leavePhase_ldefer_inv (hs : List (handlerKey × Handler)) (src : String)
    (c c' : Event) (tr : List Slot) (h : leavePhase hs src c = .ldefer c' tr) :
    c'.canceled = false ∧ c'.async = true := by
  unfold leavePhase at h
  cases hstep : leaveStep hs ⟨src, .leaveState⟩ .leaveNamed c [] with
  | lcancel c0 tr0 => rw [hstep] at h; cases h
  | ldefer c0 tr0 =>
    rw [hstep] at h; cases h
    exact leaveStep_ldefer_inv _ _ _ _ _ _ _ hstep
  | lthrough c1 tr1 =>
    rw [hstep] at h
    exact leaveStep_ldefer_inv _ _ _ _ _ _ _ h

theorem runPending_fst (m : StateMachine) (eventName dst : String) (c : Event) :
    (runPending m eventName dst c).1 = { m with current := dst } := rfl

theorem runPending_trace (m : StateMachine) (eventName src dst : String)
    (c : Event) :
    (runPending m eventName dst c).2.2 = Slot.setState ::
      ([Slot.enterNamed, Slot.enterGeneric, Slot.afterNamed, Slot.afterGeneric].filter
        (slotPresent m.handlers eventName src dst)) := by
  unfold runPending runOptHandler
  cases h1 : mapLookup m.handlers ⟨dst, .enterState⟩ <;>
    cases h2 : mapLookup m.handlers ⟨"", .enterState⟩ <;>
    cases h3 : mapLookup m.handlers ⟨eventName, .afterEvent⟩ <;>
    cases h4 : mapLookup m.handlers ⟨"", .afterEvent⟩ <;>
    simp [slotPresent, h1, h2, h3, h4, List.filter]

/-- Concrete machine with a transition already pending (deferred). -/
def busyMachine : StateMachine :=
  { current := "start",
    states := [(⟨"run", "start"⟩, "end")],
    handlers := [],
    startState := some ⟨"run", "end", mkEvent "run" "start" "end" []⟩ }

/-- C5: while a deferred transition is pending, every fire call fails with
`TransitionInProgress` before any lookup or callback: the trace is empty, no
context is built, and the machine — in particular its current state — is
returned exactly as it was. -/
theorem fire_busy_rejected (m : StateMachine) (eventName : String)
    (args : List String) (p : Pending) (h : m.startState = some p) :
    m.Event eventName args =
      ⟨m, some (.transitionInProgress eventName), [], .busy, none⟩ := by
  simp [StateMachine.Event, h]

theorem fire_busy_rejected_witness :
    busyMachine.startState = some ⟨"run", "end", mkEvent "run" "start" "end" []⟩ ∧
    busyMachine.Event "reset" [] =
      ⟨busyMachine, some (.transitionInProgress "reset"), [], .busy, none⟩ :=
  ⟨rfl, fire_busy_rejected busyMachine "reset" []
    ⟨"run", "end", mkEvent "run" "start" "end" []⟩ rfl⟩

/-- Concrete two-state door machine with no handlers. -/
def doorMachine : StateMachine :=
  NewStateMachine "closed"
    [⟨"open", ["closed"], "open"⟩, ⟨"close", ["open"], "closed"⟩] []

/-- C6: with no transition pending and no table entry for
`(event, current)`, fire fails with `UnknownEvent` when no table key at all
mentions the event name, and with `IllegalTransition` when some key does;
in both cases no callback runs and the machine is unchanged. -/
theorem fire_unknown_vs_illegal (m : StateMachine) (eventName : String)
    (args : List String) (h : m.startState = none)
    (hlk : mapLookup m.states ⟨eventName, m.current⟩ = none) :
    (hasEventEntry m.states eventName = false →
      m.Event eventName args =
        ⟨m, some (.unknownEvent eventName), [], .unknown, none⟩) ∧
    (hasEventEntry m.states eventName = true →
      m.Event eventName args =
        ⟨m, some (.illegalTransition eventName m.current), [], .illegal, none⟩) := by
  constructor <;> intro hee <;> simp [StateMachine.Event, h, hlk, hee]

theorem fire_unknown_vs_illegal_witness :
    doorMachine.Event "lock" [] =
      ⟨doorMachine, some (.unknownEvent "lock"), [], .unknown, none⟩ ∧
    doorMachine.Event "close" [] =
      ⟨doorMachine, some (.illegalTransition "close" "closed"), [], .illegal, none⟩ :=
  ⟨(fire_unknown_vs_illegal doorMachine "lock" [] rfl rfl).1 rfl,
   (fire_unknown_vs_illegal doorMachine "close" [] rfl rfl).2 rfl⟩

/-- Concrete self-loop machine with every generic handler registered
(the spec's scenario C). -/
def selfLoopMachine : StateMachine :=
  NewStateMachine "start" [⟨"run", ["start"], "start"⟩]
    [("before_event", fun e => e), ("leave_state", fun e => e),
     ("enter_state", fun e => e), ("after_event", fun e => e)]

/-- C7: when the looked-up destination equals the current state (and no
transition is pending), fire returns nil at once: the trace is empty even if
handlers are registered, no context and no pending continuation are built,
and the machine is unchanged. -/
theorem fire_selfloop_noop (m : StateMachine) (eventName : String)
    (args : List String) (dst : String) (h : m.startState = none)
    (hlk : mapLookup m.states ⟨eventName, m.current⟩ = some dst)
    (hd : m.current = dst) :
    m.Event eventName args = ⟨m, none, [], .noop, none⟩ := by
  subst hd
  simp [StateMachine.Event, h, hlk]

theorem fire_selfloop_noop_witness :
    (mapLookup selfLoopMachine.handlers ⟨"", .beforeEvent⟩).isSome = true ∧
    (mapLookup selfLoopMachine.handlers ⟨"", .leaveState⟩).isSome = true ∧
    (mapLookup selfLoopMachine.handlers ⟨"", .enterState⟩).isSome = true ∧
    (mapLookup selfLoopMachine.handlers ⟨"", .afterEvent⟩).isSome = true ∧
    selfLoopMachine.Event "run" [] = ⟨selfLoopMachine, none, [], .noop, none⟩ :=
  ⟨rfl, rfl, rfl, rfl, fire_selfloop_noop selfLoopMachine "run" [] "start" rfl rfl rfl⟩

/-- Concrete machine whose generic before handler cancels. -/
def cancelMachine : StateMachine :=
  NewStateMachine "start" [⟨"run", ["start"], "end"⟩]
    [("before_event", Event.Cancel)]

/-- C4: a fire call changes the current state only on the synchronous
completion path; every other return path — busy, unknown event, illegal
transition, no-op, cancellation, deferral — leaves the current state exactly
as it was before the call. -/
theorem fire_nonsync_preserves_current (m : StateMachine) (eventName : String)
    (args : List String)
    (h : (m.Event eventName args).outcome ≠ .syncReturn) :
    (m.Event eventName args).machine.current = m.current := by
  cases hss : m.startState with
  | some p => simp [StateMachine.Event, hss]
  | none =>
    cases hlk : mapLookup m.states ⟨eventName, m.current⟩ with
    | none =>
      cases hee : hasEventEntry m.states eventName <;>
        simp [StateMachine.Event, hss, hlk, hee]
    | some dst =>
      cases hcd : m.current == dst with
      | true => simp [StateMachine.Event, hss, hlk, hcd]
      | false =>
        cases hbp : beforePhase m.handlers eventName
            (mkEvent eventName m.current dst args) with
        | canceledOut c tr => simp [StateMachine.Event, hss, hlk, hcd, hbp]
        | ok c1 tr1 =>
          cases hlp : leavePhase m.handlers m.current c1 with
          | lcancel c2 tr2 => simp [StateMachine.Event, hss, hlk, hcd, hbp, hlp]
          | ldefer c2 tr2 => simp [StateMachine.Event, hss, hlk, hcd, hbp, hlp]
          | lthrough c2 tr2 =>
            exact absurd (by simp [StateMachine.Event, hss, hlk, hcd, hbp, hlp]) h

theorem fire_nonsync_preserves_current_witness :
    (cancelMachine.Event "run" []).outcome ≠ Outcome.syncReturn ∧
    (cancelMachine.Event "run" []).machine.current = cancelMachine.current :=
  ⟨by decide, fire_nonsync_preserves_current cancelMachine "run" [] (by decide)⟩

/-- Concrete machine whose leave handler both cancels and defers. -/
def cancelDeferMachine : StateMachine :=
  NewStateMachine "start" [⟨"run", ["start"], "end"⟩]
    [("leave_start", fun e => Event.Async (Event.Cancel e))]

/-- C9: cancellation takes precedence over deferral.  Whenever fire returns
through a cancellation, the current state is unchanged, no pending
continuation remains (even if the canceling handler also set the async
flag), and the returned value is the context's error field; and whenever a
pending continuation is stored, its context is not canceled and is
deferred. -/
theorem leave_cancel_beats_defer (m : StateMachine) (eventName : String)
    (args : List String) :
    ((m.Event eventName args).outcome = .cancelReturn →
      (m.Event eventName args).machine.current = m.current ∧
      (m.Event eventName args).machine.startState = none ∧
      ∃ c, (m.Event eventName args).finalCtx = some c ∧ c.canceled = true ∧
        (m.Event eventName args).ret = c.Err) ∧
    ((m.Event eventName args).outcome = .deferReturn →
      ∃ p, (m.Event eventName args).machine.startState = some p ∧
        p.ctx.canceled = false ∧ p.ctx.async = true) := by
  cases hss : m.startState with
  | some p =>
    constructor <;> intro hout <;> simp [StateMachine.Event, hss] at hout
  | none =>
    cases hlk : mapLookup m.states ⟨eventName, m.current⟩ with
    | none =>
      cases hee : hasEventEntry m.states eventName <;>
        exact ⟨fun hout => absurd hout (by simp [StateMachine.Event, hss, hlk, hee]),
          fun hout => absurd hout (by simp [StateMachine.Event, hss, hlk, hee])⟩
    | some dst =>
      cases hcd : m.current == dst with
      | true =>
        constructor <;> intro hout <;>
          simp [StateMachine.Event, hss, hlk, hcd] at hout
      | false =>
        cases hbp : beforePhase m.handlers eventName
            (mkEvent eventName m.current dst args) with
        | canceledOut c tr =>
          constructor <;> intro hout
          · exact ⟨by simp [StateMachine.Event, hss, hlk, hcd, hbp],
              by simp [StateMachine.Event, hss, hlk, hcd, hbp],
              c, by simp [StateMachine.Event, hss, hlk, hcd, hbp],
              beforePhase_canceled_inv _ _ _ _ _ hbp,
              by simp [StateMachine.Event, hss, hlk, hcd, hbp]⟩
          · simp [StateMachine.Event, hss, hlk, hcd, hbp] at hout
        | ok c1 tr1 =>
          cases hlp : leavePhase m.handlers m.current c1 with
          | lcancel c2 tr2 =>
            constructor <;> intro hout
            · exact ⟨by simp [StateMachine.Event, hss, hlk, hcd, hbp, hlp],
                by simp [StateMachine.Event, hss, hlk, hcd, hbp, hlp],
                c2, by simp [StateMachine.Event, hss, hlk, hcd, hbp, hlp],
                leavePhase_lcancel_inv _ _ _ _ _ hlp,
                by simp [StateMachine.Event, hss, hlk, hcd, hbp, hlp]⟩
            · simp [StateMachine.Event, hss, hlk, hcd, hbp, hlp] at hout
          | ldefer c2 tr2 =>
            constructor <;> intro hout
            · simp [StateMachine.Event, hss, hlk, hcd, hbp, hlp] at hout
            · exact ⟨⟨eventName, dst, c2⟩,
                by simp [StateMachine.Event, hss, hlk, hcd, hbp, hlp],
                (leavePhase_ldefer_inv _ _ _ _ _ hlp).1,
                (leavePhase_ldefer_inv _ _ _ _ _ hlp).2⟩
          | lthrough c2 tr2 =>
            constructor <;> intro hout <;>
              simp [StateMachine.Event, hss, hlk, hcd, hbp, hlp] at hout

theorem leave_cancel_beats_defer_witness :
    (cancelDeferMachine.Event "run" []).outcome = Outcome.cancelReturn ∧
    ((cancelDeferMachine.Event "run" []).machine.current =
        cancelDeferMachine.current ∧
      (cancelDeferMachine.Event "run" []).machine.startState = none ∧
      ∃ c, (cancelDeferMachine.Event "run" []).finalCtx = some c ∧
        c.canceled = true ∧ (cancelDeferMachine.Event "run" []).ret = c.Err) :=
  ⟨by decide, (leave_cancel_beats_defer cancelDeferMachine "run" []).1 (by decide)⟩

/-- Concrete machine whose generic before handler sets the async flag and
which has no leave handler at all. -/
def asyncBeforeMachine : StateMachine :=
  NewStateMachine "start" [⟨"run", ["start"], "end"⟩]
    [("before_event", Event.Async)]

/-- Concrete machine whose generic before handler sets the async flag and
whose source state has a leave handler that does nothing. -/
def asyncBeforeLeaveMachine : StateMachine :=
  NewStateMachine "start" [⟨"run", ["start"], "end"⟩]
    [("before_event", Event.Async), ("leave_start", fun e => e)]

/-- C10: the async flag is consulted only right after a leave-phase handler
invocation.  First part: with no leave handler registered (neither for the
source state nor generically) a fire call never defers and leaves no pending
continuation, even if a before handler set the async flag.  Second part: if
the context reaches the leave phase with the async flag already set and not
canceled, and the source state has a registered leave handler that does
nothing, the transition is stored as pending. -/
theorem async_flag_only_checked_after_leave :
    (∀ (m : StateMachine) (eventName : String) (args : List String),
      m.startState = none →
      mapLookup m.handlers ⟨m.current, .leaveState⟩ = none →
      mapLookup m.handlers ⟨"", .leaveState⟩ = none →
      (m.Event eventName args).outcome ≠ .deferReturn ∧
      (m.Event eventName args).machine.startState = none) ∧
    (∀ (m : StateMachine) (eventName : String) (args : List String)
      (dst : String) (c1 : Event) (tr1 : List Slot) (hL : Handler),
      m.startState = none →
      mapLookup m.states ⟨eventName, m.current⟩ = some dst →
      (m.current == dst) = false →
      beforePhase m.handlers eventName (mkEvent eventName m.current dst args) =
        .ok c1 tr1 →
      c1.canceled = false → c1.async = true →
      mapLookup m.handlers ⟨m.current, .leaveState⟩ = some hL →
      (∀ c, hL c = c) →
      (m.Event eventName args).outcome = .deferReturn ∧
      (m.Event eventName args).machine.startState =
        some ⟨eventName, dst, c1⟩) := by
  constructor
  · intro m eventName args hss hlv1 hlv2
    cases hlk : mapLookup m.states ⟨eventName, m.current⟩ with
    | none =>
      cases hee : hasEventEntry m.states eventName <;>
        exact ⟨by simp [StateMachine.Event, hss, hlk, hee],
          by simp [StateMachine.Event, hss, hlk, hee]⟩
    | some dst =>
      cases hcd : m.current == dst with
      | true => exact ⟨by simp [StateMachine.Event, hss, hlk, hcd],
          by simp [StateMachine.Event, hss, hlk, hcd]⟩
      | false =>
        cases hbp : beforePhase m.handlers eventName
            (mkEvent eventName m.current dst args) with
        | canceledOut c tr =>
          exact ⟨by simp [StateMachine.Event, hss, hlk, hcd, hbp],
            by simp [StateMachine.Event, hss, hlk, hcd, hbp]⟩
        | ok c1 tr1 =>
          have hlp : leavePhase m.handlers m.current c1 = .lthrough c1 [] := by
            simp [leavePhase, leaveStep, hlv1, hlv2]
          exact ⟨by simp [StateMachine.Event, hss, hlk, hcd, hbp, hlp],
            by simp [StateMachine.Event, hss, hlk, hcd, hbp, hlp]⟩
  · intro m eventName args dst c1 tr1 hL hss hlk hcd hbp hc ha hlv hid
    have hlp : leavePhase m.handlers m.current c1 =
        .ldefer c1 [Slot.leaveNamed] := by
      simp [leavePhase, leaveStep, hlv, hid c1, hc, ha]
    exact ⟨by simp [StateMachine.Event, hss, hlk, hcd, hbp, hlp],
      by simp [StateMachine.Event, hss, hlk, hcd, hbp, hlp]⟩

theorem async_flag_only_checked_after_leave_witness :
    ((asyncBeforeMachine.Event "run" []).outcome ≠ Outcome.deferReturn ∧
      (asyncBeforeMachine.Event "run" []).machine.startState = none) ∧
    ((asyncBeforeLeaveMachine.Event "run" []).outcome = Outcome.deferReturn ∧
      (asyncBeforeLeaveMachine.Event "run" []).machine.startState =
        some ⟨"run", "end", Event.Async (mkEvent "run" "start" "end" [])⟩) :=
  ⟨async_flag_only_checked_after_leave.1 asyncBeforeMachine "run" [] rfl rfl rfl,
   async_flag_only_checked_after_leave.2 asyncBeforeLeaveMachine "run" [] "end"
     (Event.Async (mkEvent "run" "start" "end" [])) [Slot.beforeGeneric]
     (fun e => e) rfl rfl rfl rfl rfl rfl rfl (fun _ => rfl)⟩

/-- Concrete traffic-light machine with a named and a generic handler
registered at every phase, none of which cancels or defers. -/
def trafficMachine : StateMachine :=
  NewStateMachine "green"
    [⟨"warn", ["green"], "yellow"⟩, ⟨"panic", ["yellow"], "red"⟩,
     ⟨"panic", ["green"], "red"⟩, ⟨"calm", ["red"], "yellow"⟩,
     ⟨"clear", ["yellow"], "green"⟩]
    [("before_warn", fun e => e), ("before_event", fun e => e),
     ("leave_green", fun e => e), ("leave_state", fun e => e),
     ("enter_yellow", fun e => e), ("enter_state", fun e => e),
     ("after_warn", fun e => e), ("after_event", fun e => e)]

/-- C1: a fire call that completes synchronously runs the callbacks in
exactly the order before(named), before(generic), leave(named),
leave(generic), state mutation, enter(named), enter(generic), after(named),
after(generic) — its trace is the reference order filtered to the slots that
have a registered handler — and ends with the current state equal to the
looked-up destination. -/
theorem fire_sync_callback_order (m : StateMachine) (eventName : String)
    (args : List String) (dst : String)
    (hlk : mapLookup m.states ⟨eventName, m.current⟩ = some dst)
    (hsync : (m.Event eventName args).outcome = .syncReturn) :
    (m.Event eventName args).machine.current = dst ∧
    (m.Event eventName args).trace =
      fullOrder.filter (slotPresent m.handlers eventName m.current dst) := by
  cases hss : m.startState with
  | some p => simp [StateMachine.Event, hss] at hsync
  | none =>
    cases hcd : m.current == dst with
    | true => simp [StateMachine.Event, hss, hlk, hcd] at hsync
    | false =>
      cases hbp : beforePhase m.handlers eventName
          (mkEvent eventName m.current dst args) with
      | canceledOut c tr => simp [StateMachine.Event, hss, hlk, hcd, hbp] at hsync
      | ok c1 tr1 =>
        cases hlp : leavePhase m.handlers m.current c1 with
        | lcancel c2 tr2 => simp [StateMachine.Event, hss, hlk, hcd, hbp, hlp] at hsync
        | ldefer c2 tr2 => simp [StateMachine.Event, hss, hlk, hcd, hbp, hlp] at hsync
        | lthrough c2 tr2 =>
          have ht1 := beforePhase_ok_trace m.handlers eventName m.current dst
            _ _ _ hbp
          have ht2 := leavePhase_lthrough_trace m.handlers eventName m.current
            dst _ _ _ hlp
          constructor
          · simp [StateMachine.Event, hss, hlk, hcd, hbp, hlp, runPending]
          · have hgoal : (m.Event eventName args).trace =
                tr1 ++ tr2 ++ (runPending m eventName dst c2).2.2 := by
              simp [StateMachine.Event, hss, hlk, hcd, hbp, hlp]
            rw [hgoal, ht1, ht2, runPending_trace m eventName m.current dst c2]
            have hfull : fullOrder = [Slot.beforeNamed, Slot.beforeGeneric] ++
                ([Slot.leaveNamed, Slot.leaveGeneric] ++ (Slot.setState ::
                  [Slot.enterNamed, Slot.enterGeneric, Slot.afterNamed,
                   Slot.afterGeneric])) := rfl
            rw [hfull, List.filter_append, List.filter_append]
            simp [List.filter_cons, slotPresent]

theorem fire_sync_callback_order_witness :
    mapLookup trafficMachine.states ⟨"warn", trafficMachine.current⟩ =
      some "yellow" ∧
    (trafficMachine.Event "warn" []).outcome = Outcome.syncReturn ∧
    ((trafficMachine.Event "warn" []).machine.current = "yellow" ∧
      (trafficMachine.Event "warn" []).trace = fullOrder.filter
        (slotPresent trafficMachine.handlers "warn" trafficMachine.current
          "yellow")) :=
  ⟨rfl, by decide,
   fire_sync_callback_order trafficMachine "warn" [] "yellow" rfl (by decide)⟩

/-- Concrete machine that defers: the leave handler of the source state
calls Async. -/
def deferMachine : StateMachine :=
  NewStateMachine "start" [⟨"run", ["start"], "end"⟩]
    [("leave_start", Event.Async)]

/-- C2: when a fire call returns through the deferred path, the current
state is unchanged and a continuation for the looked-up destination is
stored as pending; the subsequent resume call sets the current state to that
destination, runs the enter-phase and after-phase handlers exactly once in
order (its trace is the state mutation followed by the filtered enter/after
slots), and clears the pending slot. -/
theorem fire_defer_then_resume (m : StateMachine) (eventName : String)
    (args : List String) (dst : String)
    (hlk : mapLookup m.states ⟨eventName, m.current⟩ = some dst)
    (hdef : (m.Event eventName args).outcome = .deferReturn) :
    (m.Event eventName args).machine.current = m.current ∧
    (∃ c, (m.Event eventName args).machine.startState =
      some ⟨eventName, dst, c⟩) ∧
    ((m.Event eventName args).machine.Excute).machine.current = dst ∧
    ((m.Event eventName args).machine.Excute).machine.startState = none ∧
    ((m.Event eventName args).machine.Excute).trace = Slot.setState ::
      ([Slot.enterNamed, Slot.enterGeneric, Slot.afterNamed,
        Slot.afterGeneric].filter
        (slotPresent m.handlers eventName m.current dst)) := by
  cases hss : m.startState with
  | some p => simp [StateMachine.Event, hss] at hdef
  | none =>
    cases hcd : m.current == dst with
    | true => simp [StateMachine.Event, hss, hlk, hcd] at hdef
    | false =>
      cases hbp : beforePhase m.handlers eventName
          (mkEvent eventName m.current dst args) with
      | canceledOut c tr => simp [StateMachine.Event, hss, hlk, hcd, hbp] at hdef
      | ok c1 tr1 =>
        cases hlp : leavePhase m.handlers m.current c1 with
        | lcancel c2 tr2 => simp [StateMachine.Event, hss, hlk, hcd, hbp, hlp] at hdef
        | lthrough c2 tr2 => simp [StateMachine.Event, hss, hlk, hcd, hbp, hlp] at hdef
        | ldefer c2 tr2 =>
          have hmach : (m.Event eventName args).machine =
              { m with startState := some ⟨eventName, dst, c2⟩ } := by
            simp [StateMachine.Event, hss, hlk, hcd, hbp, hlp]
          refine ⟨by rw [hmach], ⟨c2, by rw [hmach]⟩, ?_, ?_, ?_⟩
          · rw [hmach]; simp [StateMachine.Excute, runPending]
          · rw [hmach]; simp [StateMachine.Excute]
          · rw [hmach]
            have hx := runPending_trace
              { m with startState := some ⟨eventName, dst, c2⟩ }
              eventName m.current dst c2
            simpa [StateMachine.Excute] using hx

theorem fire_defer_then_resume_witness :
    mapLookup deferMachine.states ⟨"run", deferMachine.current⟩ = some "end" ∧
    (deferMachine.Event "run" []).outcome = Outcome.deferReturn ∧
    ((deferMachine.Event "run" []).machine.current = deferMachine.current ∧
      (∃ c, (deferMachine.Event "run" []).machine.startState =
        some ⟨"run", "end", c⟩) ∧
      ((deferMachine.Event "run" []).machine.Excute).machine.current = "end" ∧
      ((deferMachine.Event "run" []).machine.Excute).machine.startState =
        none ∧
      ((deferMachine.Event "run" []).machine.Excute).trace =
        Slot.setState :: ([Slot.enterNamed, Slot.enterGeneric, Slot.afterNamed,
          Slot.afterGeneric].filter
          (slotPresent deferMachine.handlers "run" deferMachine.current
            "end"))) :=
  ⟨rfl, by decide,
   fire_defer_then_resume deferMachine "run" [] "end" rfl (by decide)⟩

/-- Concrete machine that defers and whose enter handler for the
destination sets the context's error field. -/
def resumeErrMachine : StateMachine :=
  NewStateMachine "start" [⟨"run", ["start"], "end"⟩]
    [("leave_start", Event.Async),
     ("enter_end", fun e => { e with Err := some (.userError "boom") })]

/-- C3 counterexample: resuming a deferred transition whose enter handler
sets the context's error field still returns nil — the error value set by a
callback during resume is NOT returned to the caller of resume, contrary to
the claim. -/
theorem excute_returns_nil_counterexample :
    ((resumeErrMachine.Event "run" []).machine.Excute).finalCtx.map Event.Err =
      some (some (.userError "boom")) ∧
    ((resumeErrMachine.Event "run" []).machine.Excute).ret = none :=
  ⟨by decide, by decide⟩

/-- C3 amended: resume fails with `NoTransitionInProgress` (machine
unchanged) when no transition is pending; otherwise it runs the stored
continuation — setting the current state to the stored destination and
running the enter/after handlers once in order — clears the pending slot,
and returns nil: error values set by callbacks during resume are not
propagated to the resume caller. -/
theorem excute_spec_amended :
    (∀ m : StateMachine, m.startState = none →
      m.Excute = ⟨some .noTransitionInProgress, m, [], none⟩) ∧
    (∀ (m : StateMachine) (p : Pending), m.startState = some p →
      (m.Excute).ret = none ∧
      (m.Excute).machine.startState = none ∧
      (m.Excute).machine.current = p.dst ∧
      (m.Excute).trace = Slot.setState ::
        ([Slot.enterNamed, Slot.enterGeneric, Slot.afterNamed,
          Slot.afterGeneric].filter
          (slotPresent m.handlers p.eventName p.ctx.Src p.dst))) := by
  constructor
  · intro m h
    simp [StateMachine.Excute, h]
  · intro m p h
    refine ⟨?_, ?_, ?_, ?_⟩
    · simp [StateMachine.Excute, h]
    · simp [StateMachine.Excute, h]
    · simp [StateMachine.Excute, h, runPending]
    · have hx := runPending_trace m p.eventName p.ctx.Src p.dst p.ctx
      simpa [StateMachine.Excute, h] using hx

theorem excute_spec_amended_witness :
    doorMachine.startState = none ∧
    doorMachine.Excute = ⟨some GoError.noTransitionInProgress, doorMachine,
      [], none⟩ ∧
    busyMachine.startState =
      some ⟨"run", "end", mkEvent "run" "start" "end" []⟩ ∧
    ((busyMachine.Excute).ret = none ∧
      (busyMachine.Excute).machine.startState = none ∧
      (busyMachine.Excute).machine.current = "end" ∧
      (busyMachine.Excute).trace = Slot.setState ::
        ([Slot.enterNamed, Slot.enterGeneric, Slot.afterNamed,
          Slot.afterGeneric].filter
          (slotPresent busyMachine.handlers "run" "start" "end"))) :=
  ⟨rfl, excute_spec_amended.1 doorMachine rfl, rfl,
   excute_spec_amended.2 busyMachine
     ⟨"run", "end", mkEvent "run" "start" "end" []⟩ rfl⟩

/-- The prefixed-name rule as the specification words it: if the stripped
rest equals the special suffix, register the generic handler of the phase;
else if the rest is a known name, register the named handler; else no
registration. -/
def specPrefixedRule (rest special : String) (known : List String)
    (phase : handlerType) : Option (String × handlerType) :=
  if rest == special then some ("", phase)
  else if known.contains rest then some (rest, phase)
  else none

/-- The specification's classification algorithm, transcribed step by step
from its own wording (steps 1-5): the four prefixed rules with their special
suffixes and known-name sets, then the shorthand rule — known state first,
then known event, else no registration. -/
def classifyHandlerNameSpec (allEvents allStates : List String)
    (name : String) : Option (String × handlerType) :=
  if hasPre name "before_" then
    specPrefixedRule (trimPre name "before_") "event" allEvents .beforeEvent
  else if hasPre name "leave_" then
    specPrefixedRule (trimPre name "leave_") "state" allStates .leaveState
  else if hasPre name "enter_" then
    specPrefixedRule (trimPre name "enter_") "state" allStates .enterState
  else if hasPre name "after_" then
    specPrefixedRule (trimPre name "after_") "event" allEvents .afterEvent
  else if allStates.contains name then some (name, .enterState)
  else if allEvents.contains name then some (name, .afterEvent)
  else none

/-- C8: the handler-name classification performed at construction agrees
with the specification's algorithm on every raw name and every pair of
known-event and known-state sets. -/
theorem classify_matches_handler_spec (allEvents allStates : List String)
    (name : String) :
    classifyHandlerName allEvents allStates name =
      classifyHandlerNameSpec allEvents allStates name := rfl
